import Mathlib

/-!
A shallow embedding of the reverse lookup resolver of internal/graph/lookup.go
(package graph), together with proofs of the spec's testable properties.

Modelling conventions.

* Concurrency: every ReduceableLookupFunc is a single-shot computation that
  sends exactly one LookupResult on its channel; the combinators receive one
  value per input channel, in a deterministic order (LookupAny receives from
  its per-request channels in request order).  A pure embedding therefore
  represents a ReduceableLookupFunc by the first LookupResult it sends, and a
  combinator by a function over the list of those results.  Where the Go code
  sends on a channel and keeps running (a missing return), the first sent
  value is the observable outcome and the later sends are discarded, which is
  exactly the combinators' read-once discipline.
* Machine integers: limits, revisions and depths are Nat.  Go's
  `req.Limit - objSet.Length()` is only evaluated under the loop guard
  `objSet.Length() < req.Limit`, so Nat truncated subtraction agrees with the
  int subtraction on every reachable state.
* External collaborators (namespace manager, type system, datastore) are not
  part of lookup.go; they are fields of an `Env` parameter, one field per
  narrow interface the resolver consumes.
* Recursion through the dispatcher and the closure loop need not terminate,
  so every recursive function takes a fuel argument consumed on each call;
  `Err.fuelExhausted` marks running out of fuel and corresponds to no Go
  behaviour.  Theorems quantify over the fuel.
-/

set_option linter.unusedVariables false

namespace Graph

/-- Object-and-relation triple (v0.ObjectAndRelation): namespace, object id
and relation of an object reference.  Equality is structural on all three
fields.  The Go field `Namespace` keeps its name; an ONR with empty ObjectId
is used as a relation-reference key in the cycle stacks. -/
structure ObjectAndRelation where
  Namespace : String
  ObjectId : String
  Relation : String
deriving DecidableEq, Repr

/-- Relation reference (v0.RelationReference): a namespace and relation pair. -/
structure RelationReference where
  Namespace : String
  Relation : String
deriving DecidableEq, Repr

/-- A stored relation tuple.  lookup.go only ever reads the object side
(`tpl.ObjectAndRelation`); the subject is kept for completeness.  Field names
are lowercased so they do not shadow the type names. -/
structure RelationTuple where
  objectAndRelation : ObjectAndRelation
  user : ObjectAndRelation
deriving DecidableEq, Repr

/-- Modelled from the spec: pkg/tuple's ONRSet is not under src/.  Spec
section 3 specifies a set of ONRs whose `add` reports whether the element is
new and whose iteration preserves insertion order, so the carrier is a
duplicate-free-by-construction list. -/
structure ONRSet where
  onrs : List ObjectAndRelation
deriving DecidableEq, Repr

def ONRSet.empty : ONRSet := ⟨[]⟩

/-- add(onr) -> bool: true when newly inserted; insertion appends. -/
def ONRSet.Add (s : ONRSet) (o : ObjectAndRelation) : Bool × ONRSet :=
  if o ∈ s.onrs then (false, s) else (true, ⟨s.onrs ++ [o]⟩)

def ONRSet.Update (s : ONRSet) (l : List ObjectAndRelation) : ONRSet :=
  l.foldl (fun acc o => (ONRSet.Add acc o).2) s

def ONRSet.Length (s : ONRSet) : Nat := s.onrs.length

def ONRSet.AsSlice (s : ONRSet) : List ObjectAndRelation := s.onrs

def ONRSet.Has (s : ONRSet) (o : ObjectAndRelation) : Bool := decide (o ∈ s.onrs)

/-- with(ref): the copy-on-extend stack operation. -/
def ONRSet.With (s : ONRSet) (o : ObjectAndRelation) : ONRSet := (ONRSet.Add s o).2

def ONRSet.Intersect (s t : ONRSet) : ONRSet :=
  ⟨s.onrs.filter (fun o => decide (o ∈ t.onrs))⟩

def ONRSet.Subtract (s t : ONRSet) : ONRSet :=
  ⟨s.onrs.filter (fun o => decide (o ∉ t.onrs))⟩

/-- Errors carried in LookupResult.  Collaborator failures are abstracted as
`external code`; the fmt.Errorf sites of lookup.go each get a constructor.
`nilErrorPanic` stands for ResolveError being handed a nil error, which
panics in Go (lookup.go line 678); `indexOutOfRangePanic` stands for
LookupExclude reading requests[0] of an empty slice (line 634);
`fuelExhausted` is the embedding's out-of-fuel marker and corresponds to no
Go behaviour. -/
inductive Err where
  | external (code : Nat)
  | relationNotFound (ns rel : String)
  | invalidNamespace (ns : String)
  | unexpectedNamespace
  | depthExceeded
  | nilErrorPanic
  | indexOutOfRangePanic
  | fuelExhausted
deriving DecidableEq, Repr

/-- LookupResult: lookup.go's struct {ResolvedObjects, Err} observed through
its two cases (Err nil / non-nil). -/
inductive LookupResult where
  | ok (ResolvedObjects : List ObjectAndRelation)
  | err (e : Err)
deriving DecidableEq, Repr

/-- The observable behaviour of a datastore tuple iterator: the tuples Next
yields, then optionally the error Err() reports once Next has returned nil.
An iterator failing mid-stream is one whose tuple list stops at the failure
point with `errAfter` set. -/
structure TupleIterator where
  tuples : List RelationTuple
  errAfter : Option Err
deriving DecidableEq, Repr

/-- Modelled from the spec: the result enum of
NamespaceTypeSystem.IsAllowedDirectRelation lives in internal/namespace, not
under src/; spec section 6 gives the query a Valid / not-valid answer on
whether a (namespace, relation) pair is an allowed direct subject type. -/
inductive AllowedDirectRelation where
  | DirectRelationValid
  | DirectRelationNotValid
deriving DecidableEq, Repr

/-- v0.ComputedUserset: only the relation name is consumed by lookup. -/
structure ComputedUserset where
  Relation : String
deriving DecidableEq, Repr

/-- v0.TupleToUserset flattened to what lookup consumes: `Tupleset` is the
tupleset relation name (ttu.Tupleset.Relation) and `ComputedUserset` the
computed userset relation name (ttu.ComputedUserset.Relation). -/
structure TupleToUserset where
  Tupleset : String
  ComputedUserset : String
deriving DecidableEq, Repr

mutual
/-- v0.UsersetRewrite: a union, intersection or exclusion over a
SetOperation. -/
inductive UsersetRewrite where
  | union (so : SetOperation)
  | intersection (so : SetOperation)
  | exclusion (so : SetOperation)

/-- v0.SetOperation: an ordered list of children. -/
inductive SetOperation where
  | mk (Child : List SetOperationChild)

/-- v0.SetOperation_Child: this / computed userset / nested rewrite / TTU.
The Go oneof's unknown-variant defaults (lookup.go 287, 306) are not
representable in a closed inductive. -/
inductive SetOperationChild where
  | xthis
  | computedUserset (cu : ComputedUserset)
  | usersetRewrite (rw : UsersetRewrite)
  | tupleToUserset (ttu : TupleToUserset)
end

def SetOperation.Child : SetOperation → List SetOperationChild
  | .mk children => children

/-- v0.Relation as lookup consumes it: its name and optional userset rewrite.
The allowed direct subject types sit behind the Env type-system queries.
The rewrite field is lowercased so it does not shadow the type name. -/
structure Relation where
  Name : String
  usersetRewrite : Option UsersetRewrite

/-- v0.NamespaceDefinition: name and relation list. -/
structure NamespaceDefinition where
  Name : String
  Relation : List Relation

/-- Modelled from the spec: the collaborators lookup.go consumes (spec
section 6) - the namespace manager, its per-namespace type system, and the
two datastore query builders - are not under src/, so each is an opaque
function field following the narrow interface the spec gives it.
Type-system queries take as first argument the namespace whose type system
answers them; datastore queries take the revision. -/
structure Env where
  ReadNamespaceAndTypes : String → Except Err NamespaceDefinition
  IsAllowedDirectRelation : String → String → String → String → Except Err AllowedDirectRelation
  AllowedDirectRelations : String → String → Except Err (List RelationReference)
  HasRelation : String → String → Bool
  ReverseQueryTuplesFromSubject : ObjectAndRelation → Nat → String → String → Except Err TupleIterator
  QueryTuples : String → Nat → String → List ObjectAndRelation → Nat → Except Err TupleIterator

/-- LookupRequest.  DebugTracer is omitted: a null tracer is a no-op and no
claim observes it.  AtRevision is an opaque token, modelled as Nat. -/
structure LookupRequest where
  TargetONR : ObjectAndRelation
  StartRelation : RelationReference
  Limit : Nat
  AtRevision : Nat
  DepthRemaining : Nat
  DirectStack : ONRSet
  TTUStack : ONRSet
deriving DecidableEq, Repr

/-- Modelled from the spec: the elided wildcard subject relation `...`
(a package-graph constant declared outside lookup.go, spec section 4.2). -/
def Ellipsis : String := "..."

/-- lookup.go lines 27-30: noLimit = int(maxUint >> 1), the largest signed
64-bit integer. -/
def noLimit : Nat := 2 ^ 63 - 1

/-- lookup.go lines 686-692. -/
def limitedSlice (slice : List ObjectAndRelation) (limit : Nat) : List ObjectAndRelation :=
  if limit < slice.length then slice.take limit else slice

/-- lookup.go lines 315-323. -/
def findRelation (nsdef : NamespaceDefinition) (relationName : String) : Option Relation :=
  nsdef.Relation.find? (fun relation => relation.Name == relationName)

/-- lookup.go lines 676-684: ResolveError sends {Err: err}; handed a nil
error it panics, which the embedding records as `Err.nilErrorPanic`. -/
def ResolveError : Option Err → LookupResult
  | some e => .err e
  | none => .err .nilErrorPanic

/-- lookup.go lines 664-668. -/
def ResolvedObjects (resolved : List ObjectAndRelation) : LookupResult := .ok resolved

/-- lookup.go lines 534-547: drive a single request and return its result
(the cancellation arm needs a cancelled surrounding context, out of scope
for the deterministic embedding). -/
def LookupOneF (request : LookupResult) : LookupResult := request

/-- lookup.go lines 561-582: LookupAny's receive loop over the per-request
channels in request order. -/
def lookupAnyLoop (limit : Nat) (objects : ONRSet) : List LookupResult → LookupResult
  | [] => .ok (limitedSlice objects.AsSlice limit)
  | result :: rest =>
    match result with
    | .err e => .err e
    | .ok resolved =>
      let objects := ONRSet.Update objects resolved
      if limit ≤ objects.Length then .ok (limitedSlice objects.AsSlice limit)
      else lookupAnyLoop limit objects rest

/-- lookup.go lines 549-583: union combinator. -/
def LookupAnyF (limit : Nat) (requests : List LookupResult) : LookupResult :=
  lookupAnyLoop limit ONRSet.empty requests

/-- lookup.go lines 600-622: LookupAll's receive loop after the accumulator
has been seeded by the first result. -/
def lookupAllLoop (objSet : ONRSet) : List LookupResult → LookupResult
  | [] => .ok objSet.AsSlice
  | result :: rest =>
    match result with
    | .err e => .err e
    | .ok resolved =>
      let subSet := ONRSet.Update ONRSet.empty resolved
      let objSet := ONRSet.Intersect objSet subSet
      if objSet.Length = 0 then .ok []
      else lookupAllLoop objSet rest

/-- lookup.go lines 585-625: intersection combinator.  The i == 0 iteration
seeds the accumulator; the limit parameter is never consulted. -/
def LookupAllF (limit : Nat) (requests : List LookupResult) : LookupResult :=
  match requests with
  | [] => .ok []
  | first :: rest =>
    match first with
    | .err e => .err e
    | .ok resolved =>
      let objSet := ONRSet.Update ONRSet.empty resolved
      if objSet.Length = 0 then .ok []
      else lookupAllLoop objSet rest

/-- lookup.go lines 642-659: LookupExclude's receive loop over the non-base
requests (the base result is received on its dedicated channel and already
folded into objSet). -/
def lookupExcludeLoop (limit : Nat) (objSet excSet : ONRSet) : List LookupResult → LookupResult
  | [] => .ok (limitedSlice (ONRSet.Subtract objSet excSet).AsSlice limit)
  | sub :: rest =>
    match sub with
    | .err e => .err e
    | .ok resolved => lookupExcludeLoop limit objSet (ONRSet.Update excSet resolved) rest

/-- lookup.go lines 627-662: relative-complement combinator.  requests[0] on
an empty slice panics in Go, recorded as `Err.indexOutOfRangePanic`. -/
def LookupExcludeF (limit : Nat) (requests : List LookupResult) : LookupResult :=
  match requests with
  | [] => .err .indexOutOfRangePanic
  | base :: others =>
    match base with
    | .err e => .err e
    | .ok resolved => lookupExcludeLoop limit (ONRSet.Update ONRSet.empty resolved) ONRSet.empty others

/-- The reducer type lookup.go passes to processSetOperation. -/
abbrev LookupReducer := Nat → List LookupResult → LookupResult

/-- lookup.go lines 150-160: the reverse-query consumption loop.  Returns
the collected set and whether the loop exhausted the iterator (Next returned
nil) rather than breaking at the limit.  The in-loop it.Err() test (151)
could only fire for an iterator reporting an error while still yielding
tuples, which the iterator contract excludes, so it has no counterpart. -/
def directLoop (objects : ONRSet) (tuples : List RelationTuple) (limit : Nat) : ONRSet × Bool :=
  match tuples with
  | [] => (objects, true)
  | tpl :: rest =>
    let objects2 := (ONRSet.Add objects tpl.objectAndRelation).2
    if limit ≤ objects2.Length then (objects2, false)
    else directLoop objects2 rest limit

/-- lookup.go lines 139-170: the target-is-directly-allowed branch of the
direct handler.  The post-loop check at 162-165 tests it.Err() but sends
LookupResult{Err: err} where err is the Execute error, provably nil on this
path; an iterator error found after the last tuple therefore produces an
empty success and the collected objects are dropped. -/
def directTargetBranch (env : Env) (req : LookupRequest) : LookupResult :=
  match env.ReverseQueryTuplesFromSubject req.TargetONR req.AtRevision
      req.StartRelation.Namespace req.StartRelation.Relation with
  | .error e => .err e
  | .ok it =>
    if (directLoop ONRSet.empty it.tuples req.Limit).2 ∧ it.errAfter.isSome then .ok []
    else .ok ((directLoop ONRSet.empty it.tuples req.Limit).1).AsSlice

/-- lookup.go lines 112-122: fold the combined result back into objSet,
collecting the newly inserted objects as the next toCheck. -/
def collectNew (objSet toCheck : ONRSet) : List ObjectAndRelation → ONRSet × ONRSet
  | [] => (objSet, toCheck)
  | obj :: rest =>
    collectNew (ONRSet.Add objSet obj).2
      (if (ONRSet.Add objSet obj).1 then (ONRSet.Add toCheck obj).2 else toCheck) rest

/-- lookup.go lines 349-368: select, in order, the first allowed direct
relation of each distinct subject namespace whose namespace has the computed
userset relation; a namespace-manager read error aborts the whole handler.
The Go loop interleaves this selection with appending the (pure) branch
closures, so separating the two is observationally identical. -/
def ttuSelectRelations (env : Env) (cuRel : String) :
    List RelationReference → List String → Except Err (List RelationReference)
  | [], _ => .ok []
  | directRelation :: rest, namespaces =>
    if directRelation.Namespace ∈ namespaces then
      ttuSelectRelations env cuRel rest namespaces
    else
      match env.ReadNamespaceAndTypes directRelation.Namespace with
      | .error e => .error e
      | .ok _ =>
        if env.HasRelation directRelation.Namespace cuRel then
          match ttuSelectRelations env cuRel rest (directRelation.Namespace :: namespaces) with
          | .error e => .error e
          | .ok l => .ok (directRelation :: l)
        else ttuSelectRelations env cuRel rest namespaces

/-- lookup.go lines 394-430: compute the admissible tupleset usersets for the
resolved computed-userset objects.  On an error of the ellipsis type-system
check (413-415) the Go code sends the error and keeps running without a
return; the combinator reads one result per request, so the first sent value
- the error - is the observable outcome, embedded as aborting with it. -/
def collectUsersets (env : Env) (req : LookupRequest) (ttu : TupleToUserset) :
    List ObjectAndRelation → Except Err (List ObjectAndRelation)
  | [] => .ok []
  | resolvedObj :: rest =>
    match env.IsAllowedDirectRelation req.StartRelation.Namespace ttu.Tupleset
        resolvedObj.Namespace resolvedObj.Relation with
    | .error e => .error e
    | .ok allowedDirect =>
      let allowedRelations1 : List String :=
        if allowedDirect = .DirectRelationValid then [resolvedObj.Relation] else []
      match (if resolvedObj.Relation = Ellipsis then Except.ok allowedRelations1
             else
               match env.IsAllowedDirectRelation req.StartRelation.Namespace ttu.Tupleset
                   resolvedObj.Namespace Ellipsis with
               | .error e => .error e
               | .ok allowedEllipsis =>
                 .ok (if allowedEllipsis = .DirectRelationValid then
                        allowedRelations1 ++ [Ellipsis]
                      else allowedRelations1)) with
      | .error e => .error e
      | .ok allowedRelations =>
        match collectUsersets env req ttu rest with
        | .error e => .error e
        | .ok tail =>
          .ok ((allowedRelations.map (fun allowedRelation =>
            ({ Namespace := resolvedObj.Namespace, ObjectId := resolvedObj.ObjectId,
               Relation := allowedRelation } : ObjectAndRelation))) ++ tail)

/-- lookup.go lines 446-468: the tupleset-query consumption loop.  A tuple
outside the start namespace is fatal (455); each tuple contributes
(start namespace, tuple object id, start relation) (459-463).  No post-loop
it.Err() check exists on this path. -/
def ttuLoop (startNs startRel : String) (objects : ONRSet)
    (tuples : List RelationTuple) (limit : Nat) : Except Err ONRSet :=
  match tuples with
  | [] => .ok objects
  | tpl :: rest =>
    if tpl.objectAndRelation.Namespace ≠ startNs then .error .unexpectedNamespace
    else
      let objects2 := (ONRSet.Add objects
        { Namespace := startNs, ObjectId := tpl.objectAndRelation.ObjectId,
          Relation := startRel }).2
      if limit ≤ objects2.Length then .ok objects2
      else ttuLoop startNs startRel objects2 rest limit

/-- lookup.go lines 509-521: rewrite each resolved ONR to carry the original
start relation; an ONR outside the start namespace is fatal (511-513). -/
def rewriteComputed (startNs startRel : String) :
    List ObjectAndRelation → Except Err (List ObjectAndRelation)
  | [] => .ok []
  | resolved :: rest =>
    if resolved.Namespace ≠ startNs then .error (.invalidNamespace resolved.Namespace)
    else
      match rewriteComputed startNs startRel rest with
      | .error e => .error e
      | .ok tail =>
        .ok ({ Namespace := resolved.Namespace, ObjectId := resolved.ObjectId,
               Relation := startRel } :: tail)

mutual

/-- lookup.go lines 32-126: concurrentLookup.lookup.  The self-match is
added first (39-42), the structural pass is driven under LookupAny (63),
and the closure loop (74-123) is `lookupLoopF`. -/
def lookupF : Env → Nat → LookupRequest → LookupResult
  | _, 0, _ => .err .fuelExhausted
  | env, fuel + 1, req =>
    let objSet : ONRSet :=
      if req.StartRelation.Namespace = req.TargetONR.Namespace ∧
          req.StartRelation.Relation = req.TargetONR.Relation then
        ONRSet.With ONRSet.empty req.TargetONR
      else ONRSet.empty
    match env.ReadNamespaceAndTypes req.StartRelation.Namespace with
    | .error e => ResolveError (some e)
    | .ok nsdef =>
      match findRelation nsdef req.StartRelation.Relation with
      | none =>
        ResolveError (some (.relationNotFound req.StartRelation.Namespace
          req.StartRelation.Relation))
      | some relation =>
        let request : LookupResult :=
          match relation.usersetRewrite with
          | some rewrite => processRewriteF env fuel req nsdef rewrite
          | none => lookupDirectF env fuel req
        match LookupAnyF req.Limit [request] with
        | .err e => ResolveError (some e)
        | .ok resolved =>
          lookupLoopF env fuel req (ONRSet.Update objSet resolved)
            (ONRSet.Update objSet resolved)
  termination_by structural _ fuel _ => fuel

/-- lookup.go lines 74-123: the transitive-closure loop.  On a failing
iteration (107-110) the code returns ResolveError(err) where err is the
outer namespace-read error, provably nil at this point, so the iteration's
own error is dropped and ResolveError panics on the nil. -/
def lookupLoopF : Env → Nat → LookupRequest → ONRSet → ONRSet → LookupResult
  | _, 0, _, _, _ => .err .fuelExhausted
  | env, fuel + 1, req, objSet, toCheck =>
    if toCheck.Length = 0 ∨ req.Limit ≤ objSet.Length then
      .ok (limitedSlice objSet.AsSlice req.Limit)
    else
      let requests := (toCheck.AsSlice.filter (fun obj =>
        !(obj.Namespace == req.TargetONR.Namespace &&
          obj.Relation == req.TargetONR.Relation &&
          obj.ObjectId == req.TargetONR.ObjectId))).map
        (fun obj => dispatchF env fuel
          { TargetONR := obj
            StartRelation := req.StartRelation
            Limit := req.Limit - objSet.Length
            AtRevision := req.AtRevision
            DepthRemaining := req.DepthRemaining - 1
            DirectStack := req.DirectStack
            TTUStack := req.TTUStack })
      if requests.length = 0 then
        .ok (limitedSlice objSet.AsSlice req.Limit)
      else
        match LookupAnyF req.Limit requests with
        | .err _ => ResolveError none
        | .ok resolvedObjects =>
          lookupLoopF env fuel req (collectNew objSet ONRSet.empty resolvedObjects).1
            (collectNew objSet ONRSet.empty resolvedObjects).2
  termination_by structural _ fuel _ _ _ => fuel

/-- Modelled from the spec: the Dispatcher the request travels through
(spec section 6) is not under src/; it "must honour depth_remaining,
failing with a depth-exceeded error when zero" before routing the request
back into lookup; lookup.go's own cl.dispatch (lines 526-532) only forwards
to it.  The depth test consults no collaborator. -/
def dispatchF : Env → Nat → LookupRequest → LookupResult
  | _, 0, _ => .err .fuelExhausted
  | env, fuel + 1, req =>
    if req.DepthRemaining = 0 then .err .depthExceeded
    else lookupF env fuel req
  termination_by structural _ fuel _ => fuel

/-- lookup.go lines 128-276: the direct handler.  Branch (a) is
`directTargetBranch`; branch (b) filters the allowed direct subject types
(ellipsis 190-192, the start relation itself 194-197, stack members
199-208) and maps the survivors to inferred sub-lookups. -/
def lookupDirectF : Env → Nat → LookupRequest → LookupResult
  | _, 0, _ => .err .fuelExhausted
  | env, fuel + 1, req =>
    match env.IsAllowedDirectRelation req.StartRelation.Namespace req.StartRelation.Relation
        req.TargetONR.Namespace req.TargetONR.Relation with
    | .error e => ResolveError (some e)
    | .ok isDirectAllowed =>
      let requests0 : List LookupResult :=
        if isDirectAllowed = .DirectRelationValid then [directTargetBranch env req] else []
      match env.AllowedDirectRelations req.StartRelation.Namespace req.StartRelation.Relation with
      | .error e => ResolveError (some e)
      | .ok allowedDirect =>
        let directStack := ONRSet.With req.DirectStack
          { Namespace := req.StartRelation.Namespace, ObjectId := "",
            Relation := req.StartRelation.Relation }
        let inferredTypes := allowedDirect.filter (fun adt =>
          !(adt.Relation == Ellipsis) &&
          !(adt.Namespace == req.StartRelation.Namespace &&
            adt.Relation == req.StartRelation.Relation) &&
          !(ONRSet.Has directStack
            { Namespace := adt.Namespace, ObjectId := "", Relation := adt.Relation }))
        let requests := requests0 ++
          inferredTypes.map (fun adt => inferredBranch env fuel req directStack adt)
        if requests.length = 0 then .ok []
        else LookupAnyF req.Limit requests
  termination_by structural _ fuel _ => fuel

/-- lookup.go lines 213-266: one inferred-direct sub-lookup: dispatch on the
inferred relation with noLimit and the extended direct stack, then join the
resolved intermediates back through the start relation with a forward
query.  The consumption loop (250-262) has no post-loop it.Err() check, so
an iterator error after the last tuple is ignored. -/
def inferredBranch : Env → Nat → LookupRequest → ONRSet → RelationReference → LookupResult
  | _, 0, _, _, _ => .err .fuelExhausted
  | env, fuel + 1, req, directStack, allowedDirectType =>
    let inferredRequest := dispatchF env fuel
      { TargetONR := req.TargetONR
        StartRelation := { Namespace := allowedDirectType.Namespace,
                           Relation := allowedDirectType.Relation }
        Limit := noLimit
        AtRevision := req.AtRevision
        DepthRemaining := req.DepthRemaining - 1
        DirectStack := directStack
        TTUStack := req.TTUStack }
    match LookupAnyF noLimit [inferredRequest] with
    | .err e => .err e
    | .ok resolvedObjects =>
      if 0 < resolvedObjects.length then
        match env.QueryTuples req.StartRelation.Namespace req.AtRevision
            req.StartRelation.Relation resolvedObjects req.Limit with
        | .error e => .err e
        | .ok it => .ok ((directLoop ONRSet.empty it.tuples req.Limit).1).AsSlice
      else .ok (ONRSet.AsSlice ONRSet.empty)
  termination_by structural _ fuel _ _ _ => fuel

/-- lookup.go lines 278-289: dispatch on the rewrite variant, choosing the
combinator. -/
def processRewriteF : Env → Nat → LookupRequest → NamespaceDefinition → UsersetRewrite → LookupResult
  | _, 0, _, _, _ => .err .fuelExhausted
  | env, fuel + 1, req, nsdef, .union so => processSetOperationF env fuel req nsdef so LookupAnyF
  | env, fuel + 1, req, nsdef, .intersection so =>
    processSetOperationF env fuel req nsdef so LookupAllF
  | env, fuel + 1, req, nsdef, .exclusion so =>
    processSetOperationF env fuel req nsdef so LookupExcludeF
  termination_by structural _ fuel _ _ _ => fuel

/-- lookup.go lines 291-313: evaluate every child and reduce. -/
def processSetOperationF : Env → Nat → LookupRequest → NamespaceDefinition → SetOperation →
    LookupReducer → LookupResult
  | _, 0, _, _, _, _ => .err .fuelExhausted
  | env, fuel + 1, req, nsdef, so, reducer =>
    reducer req.Limit (so.Child.map (fun childOneof =>
      match childOneof with
      | .xthis => lookupDirectF env fuel req
      | .computedUserset cu => lookupComputedF env fuel req cu
      | .usersetRewrite child => processRewriteF env fuel req nsdef child
      | .tupleToUserset ttu => processTupleToUsersetF env fuel req nsdef ttu))
  termination_by structural _ fuel _ _ _ _ => fuel

/-- lookup.go lines 325-483: the tuple-to-userset handler.  The cycle cut
(326-335) returns the empty set before touching any collaborator. -/
def processTupleToUsersetF : Env → Nat → LookupRequest → NamespaceDefinition → TupleToUserset →
    LookupResult
  | _, 0, _, _, _ => .err .fuelExhausted
  | env, fuel + 1, req, nsdef, ttu =>
    let onr : ObjectAndRelation :=
      { Namespace := req.StartRelation.Namespace, ObjectId := "",
        Relation := req.StartRelation.Relation }
    if onr ∈ req.TTUStack.onrs then ResolvedObjects []
    else
      match env.AllowedDirectRelations req.StartRelation.Namespace ttu.Tupleset with
      | .error e => ResolveError (some e)
      | .ok tuplesetDirectRelations =>
        match ttuSelectRelations env ttu.ComputedUserset tuplesetDirectRelations [] with
        | .error e => ResolveError (some e)
        | .ok selected =>
          let requests := selected.map (fun directRelation =>
            ttuBranch env fuel req ttu onr directRelation)
          if requests.length = 0 then ResolvedObjects []
          else LookupAnyF req.Limit requests
  termination_by structural _ fuel _ _ _ => fuel

/-- lookup.go lines 369-473: one per-namespace TTU branch: dispatch the
computed-userset lookup with noLimit and the extended TTU stack, build the
admissible usersets, then run the tupleset query. -/
def ttuBranch : Env → Nat → LookupRequest → TupleToUserset → ObjectAndRelation →
    RelationReference → LookupResult
  | _, 0, _, _, _, _ => .err .fuelExhausted
  | env, fuel + 1, req, ttu, onr, directRelation =>
    let computedUsersetRequest := dispatchF env fuel
      { TargetONR := req.TargetONR
        StartRelation := { Namespace := directRelation.Namespace,
                           Relation := ttu.ComputedUserset }
        Limit := noLimit
        AtRevision := req.AtRevision
        DepthRemaining := req.DepthRemaining - 1
        DirectStack := req.DirectStack
        TTUStack := ONRSet.With req.TTUStack onr }
    match LookupAnyF noLimit [computedUsersetRequest] with
    | .err e => .err e
    | .ok resolvedObjects =>
      if resolvedObjects.length = 0 then .ok resolvedObjects
      else
        match collectUsersets env req ttu resolvedObjects with
        | .error e => .err e
        | .ok usersets =>
          if 0 < usersets.length then
            match env.QueryTuples req.StartRelation.Namespace req.AtRevision
                ttu.Tupleset usersets req.Limit with
            | .error e => .err e
            | .ok it =>
              match ttuLoop req.StartRelation.Namespace req.StartRelation.Relation
                  ONRSet.empty it.tuples req.Limit with
              | .error e => .err e
              | .ok objects => .ok objects.AsSlice
          else .ok []
  termination_by structural _ fuel _ _ _ _ => fuel

/-- lookup.go lines 485-524: the computed-userset handler: dispatch with the
rewritten relation, the original limit and the extended direct stack, then
rewrite the resolved ONRs back to the start relation. -/
def lookupComputedF : Env → Nat → LookupRequest → ComputedUserset → LookupResult
  | _, 0, _, _ => .err .fuelExhausted
  | env, fuel + 1, req, cu =>
    match LookupOneF (dispatchF env fuel
      { TargetONR := req.TargetONR
        StartRelation := { Namespace := req.StartRelation.Namespace, Relation := cu.Relation }
        Limit := req.Limit
        AtRevision := req.AtRevision
        DepthRemaining := req.DepthRemaining - 1
        DirectStack := ONRSet.With req.DirectStack
          { Namespace := req.StartRelation.Namespace, ObjectId := "",
            Relation := req.StartRelation.Relation }
        TTUStack := req.TTUStack }) with
    | .err e => ResolveError (some e)
    | .ok resolvedObjects =>
      match rewriteComputed req.StartRelation.Namespace req.StartRelation.Relation
          resolvedObjects with
      | .error e => ResolveError (some e)
      | .ok rewrittenResolved => ResolvedObjects rewrittenResolved
  termination_by structural _ fuel _ _ => fuel

end

/-! Concrete objects, environments and requests used by the witnesses and
counterexamples below. -/

def alice : ObjectAndRelation :=
  { Namespace := "user", ObjectId := "alice", Relation := "..." }

def doc1viewer : ObjectAndRelation :=
  { Namespace := "document", ObjectId := "1", Relation := "viewer" }

def folderfRead : ObjectAndRelation :=
  { Namespace := "folder", ObjectId := "f", Relation := "read" }

def doc3parent : ObjectAndRelation :=
  { Namespace := "document", ObjectId := "3", Relation := "parent" }

def doc3read : ObjectAndRelation :=
  { Namespace := "document", ObjectId := "3", Relation := "read" }

/-- A minimal environment: every namespace has only the relation "...",
without rewrite; nothing is an allowed direct subject; all queries return
empty error-free iterators. -/
def env0 : Env where
  ReadNamespaceAndTypes := fun ns =>
    .ok { Name := ns, Relation := [{ Name := "...", usersetRewrite := none }] }
  IsAllowedDirectRelation := fun _ _ _ _ => .ok .DirectRelationNotValid
  AllowedDirectRelations := fun _ _ => .ok []
  HasRelation := fun _ _ => false
  ReverseQueryTuplesFromSubject := fun _ _ _ _ => .ok { tuples := [], errAfter := none }
  QueryTuples := fun _ _ _ _ _ => .ok { tuples := [], errAfter := none }

/-- A self-match request: start relation equals the target's namespace and
relation. -/
def req0 : LookupRequest :=
  { TargetONR := alice
    StartRelation := { Namespace := "user", Relation := "..." }
    Limit := 10
    AtRevision := 0
    DepthRemaining := 5
    DirectStack := ONRSet.empty
    TTUStack := ONRSet.empty }

/-- An environment with one rewrite-free relation "viewer" everywhere, the
target directly allowed, and one reverse-query tuple doc:1#viewer@alice. -/
def env1 : Env where
  ReadNamespaceAndTypes := fun ns =>
    .ok { Name := ns, Relation := [{ Name := "viewer", usersetRewrite := none }] }
  IsAllowedDirectRelation := fun _ _ _ _ => .ok .DirectRelationValid
  AllowedDirectRelations := fun _ _ => .ok []
  HasRelation := fun _ _ => false
  ReverseQueryTuplesFromSubject := fun _ _ _ _ =>
    .ok { tuples := [{ objectAndRelation := doc1viewer, user := alice }], errAfter := none }
  QueryTuples := fun _ _ _ _ _ => .ok { tuples := [], errAfter := none }

/-- A depth-1 request on document#viewer: the structural pass finds doc:1 and
the closure loop's re-dispatch then fails the dispatcher's depth check. -/
def req1 : LookupRequest :=
  { TargetONR := alice
    StartRelation := { Namespace := "document", Relation := "viewer" }
    Limit := 10
    AtRevision := 0
    DepthRemaining := 1
    DirectStack := ONRSet.empty
    TTUStack := ONRSet.empty }

/-- req1 with the start relation already on the direct stack. -/
def req2 : LookupRequest :=
  { TargetONR := alice
    StartRelation := { Namespace := "document", Relation := "viewer" }
    Limit := 10
    AtRevision := 0
    DepthRemaining := 5
    DirectStack := ⟨[{ Namespace := "document", ObjectId := "", Relation := "viewer" }]⟩
    TTUStack := ONRSet.empty }

/-- Like env1 but the reverse-query iterator reports an error after its last
tuple. -/
def env4 : Env where
  ReadNamespaceAndTypes := fun ns =>
    .ok { Name := ns, Relation := [{ Name := "viewer", usersetRewrite := none }] }
  IsAllowedDirectRelation := fun _ _ _ _ => .ok .DirectRelationValid
  AllowedDirectRelations := fun _ _ => .ok []
  HasRelation := fun _ _ => false
  ReverseQueryTuplesFromSubject := fun _ _ _ _ =>
    .ok { tuples := [{ objectAndRelation := doc1viewer, user := alice }],
          errAfter := some (.external 7) }
  QueryTuples := fun _ _ _ _ _ => .ok { tuples := [], errAfter := none }

/-- Spec scenario 4 (TTU closure): document#read = parent->read, with tuples
(doc:3#parent@folder:f) and (folder:f#read@user:alice). -/
def env5 : Env where
  ReadNamespaceAndTypes := fun ns =>
    if ns = "document" then
      .ok { Name := "document",
            Relation := [{ Name := "parent", usersetRewrite := none },
                         { Name := "read",
                           usersetRewrite := some (.union (.mk
                             [.tupleToUserset { Tupleset := "parent",
                                                ComputedUserset := "read" }])) }] }
    else if ns = "folder" then
      .ok { Name := "folder", Relation := [{ Name := "read", usersetRewrite := none }] }
    else .error (.external 0)
  IsAllowedDirectRelation := fun ns rel subjNs subjRel =>
    if ns = "folder" ∧ rel = "read" ∧ subjNs = "user" ∧ subjRel = "..." then
      .ok .DirectRelationValid
    else if ns = "document" ∧ rel = "parent" ∧ subjNs = "folder" ∧ subjRel = "..." then
      .ok .DirectRelationValid
    else .ok .DirectRelationNotValid
  AllowedDirectRelations := fun ns rel =>
    if ns = "document" ∧ rel = "parent" then .ok [{ Namespace := "folder", Relation := "..." }]
    else if ns = "folder" ∧ rel = "read" then .ok [{ Namespace := "user", Relation := "..." }]
    else .ok []
  HasRelation := fun ns rel => decide (ns = "folder" ∧ rel = "read")
  ReverseQueryTuplesFromSubject := fun subject _ ns rel =>
    if subject = alice ∧ ns = "folder" ∧ rel = "read" then
      .ok { tuples := [{ objectAndRelation := folderfRead, user := alice }], errAfter := none }
    else .ok { tuples := [], errAfter := none }
  QueryTuples := fun ns _ rel usersets _ =>
    if ns = "document" ∧ rel = "parent" ∧
        ({ Namespace := "folder", ObjectId := "f", Relation := "..." } : ObjectAndRelation)
          ∈ usersets then
      .ok { tuples := [{ objectAndRelation := doc3parent,
                         user := { Namespace := "folder", ObjectId := "f",
                                   Relation := "..." } }], errAfter := none }
    else .ok { tuples := [], errAfter := none }

/-- The TTU-closure request of spec scenario 4. -/
def req5 : LookupRequest :=
  { TargetONR := alice
    StartRelation := { Namespace := "document", Relation := "read" }
    Limit := 10
    AtRevision := 0
    DepthRemaining := 10
    DirectStack := ONRSet.empty
    TTUStack := ONRSet.empty }

/-- req0 at depth zero. -/
def req0d : LookupRequest :=
  { TargetONR := alice
    StartRelation := { Namespace := "user", Relation := "..." }
    Limit := 10
    AtRevision := 0
    DepthRemaining := 0
    DirectStack := ONRSet.empty
    TTUStack := ONRSet.empty }

/-- An environment where nothing is directly allowed and document#viewer's
allowed subject types are the start relation itself, a stacked reference,
and the ellipsis. -/
def env3 : Env where
  ReadNamespaceAndTypes := fun ns =>
    .ok { Name := ns, Relation := [{ Name := "viewer", usersetRewrite := none }] }
  IsAllowedDirectRelation := fun _ _ _ _ => .ok .DirectRelationNotValid
  AllowedDirectRelations := fun _ _ =>
    .ok [{ Namespace := "document", Relation := "viewer" },
         { Namespace := "group", Relation := "member" },
         { Namespace := "user", Relation := "..." }]
  HasRelation := fun _ _ => false
  ReverseQueryTuplesFromSubject := fun _ _ _ _ => .ok { tuples := [], errAfter := none }
  QueryTuples := fun _ _ _ _ _ => .ok { tuples := [], errAfter := none }

/-- A request on document#viewer whose direct stack holds group#member. -/
def req3 : LookupRequest :=
  { TargetONR := alice
    StartRelation := { Namespace := "document", Relation := "viewer" }
    Limit := 10
    AtRevision := 0
    DepthRemaining := 5
    DirectStack := ⟨[{ Namespace := "group", ObjectId := "", Relation := "member" }]⟩
    TTUStack := ONRSet.empty }

/-- A request whose TTU stack already holds the start relation reference. -/
def reqT : LookupRequest :=
  { TargetONR := alice
    StartRelation := { Namespace := "document", Relation := "viewer" }
    Limit := 10
    AtRevision := 0
    DepthRemaining := 5
    DirectStack := ONRSet.empty
    TTUStack := ⟨[{ Namespace := "document", ObjectId := "", Relation := "viewer" }]⟩ }

/-- An empty namespace definition for the TTU cycle-cut witness (the cut
fires before the definition is consulted). -/
def nsdef0 : NamespaceDefinition := { Name := "document", Relation := [] }

/-- A TTU node for the cycle-cut witness. -/
def ttu0 : TupleToUserset := { Tupleset := "parent", ComputedUserset := "read" }

def onrA : ObjectAndRelation :=
  { Namespace := "document", ObjectId := "a", Relation := "viewer" }

def onrB : ObjectAndRelation :=
  { Namespace := "document", ObjectId := "b", Relation := "viewer" }

/-- Two successful results for the LookupAll witness. -/
def rsAll : List LookupResult := [.ok [onrA, onrB], .ok [onrB]]

/-! Properties the spec states about the collaborators, used as hypotheses:
the reverse query only returns tuples whose object side matches the
requested object relation, and the forward query only returns tuples of the
queried namespace and relation (spec section 6's WithObjectRelation /
WithRelation filters). -/

/-- The reverse-query contract: WithObjectRelation(ns, rel) filters the
yielded tuples' object side. -/
def EnvRevOk (env : Env) : Prop :=
  ∀ subject rev ns rel it, env.ReverseQueryTuplesFromSubject subject rev ns rel = .ok it →
    ∀ t ∈ it.tuples, t.objectAndRelation.Namespace = ns ∧ t.objectAndRelation.Relation = rel

/-- The forward-query contract: QueryTuples(ns).WithRelation(rel) filters
the yielded tuples' object side. -/
def EnvFwdOk (env : Env) : Prop :=
  ∀ ns rev rel usersets lim it, env.QueryTuples ns rev rel usersets lim = .ok it →
    ∀ t ∈ it.tuples, t.objectAndRelation.Namespace = ns ∧ t.objectAndRelation.Relation = rel

/-- Invariant 2's per-ONR property: the ONR lives on the request's start
relation. -/
def Matches (sr : RelationReference) (o : ObjectAndRelation) : Prop :=
  o.Namespace = sr.Namespace ∧ o.Relation = sr.Relation

/-- A result is good for a start relation when, if it is a success, all its
objects match the start relation. -/
def ResultGood (sr : RelationReference) (r : LookupResult) : Prop :=
  ∀ l, r = .ok l → ∀ o ∈ l, Matches sr o

/-- A reducer only ever returns objects drawn from its successful inputs. -/
def ReducerSub (reducer : LookupReducer) : Prop :=
  ∀ limit results objs, reducer limit results = .ok objs →
    ∀ o ∈ objs, ∃ l, LookupResult.ok l ∈ results ∧ o ∈ l

/-- The start-relation invariant, stated for every function of the mutual
recursion at a given fuel.  The closure-loop component carries the
hypothesis that the accumulated set already satisfies the invariant. -/
def InvAt (env : Env) (fuel : Nat) : Prop :=
  (∀ req objs, lookupF env fuel req = .ok objs →
    ∀ o ∈ objs, Matches req.StartRelation o)
  ∧ (∀ req objSet toCheck objs, (∀ o ∈ objSet.onrs, Matches req.StartRelation o) →
      lookupLoopF env fuel req objSet toCheck = .ok objs →
      ∀ o ∈ objs, Matches req.StartRelation o)
  ∧ (∀ req objs, dispatchF env fuel req = .ok objs →
      ∀ o ∈ objs, Matches req.StartRelation o)
  ∧ (∀ req objs, lookupDirectF env fuel req = .ok objs →
      ∀ o ∈ objs, Matches req.StartRelation o)
  ∧ (∀ req ds adt objs, inferredBranch env fuel req ds adt = .ok objs →
      ∀ o ∈ objs, Matches req.StartRelation o)
  ∧ (∀ req nsdef usr objs, processRewriteF env fuel req nsdef usr = .ok objs →
      ∀ o ∈ objs, Matches req.StartRelation o)
  ∧ (∀ req nsdef so reducer objs, ReducerSub reducer →
      processSetOperationF env fuel req nsdef so reducer = .ok objs →
      ∀ o ∈ objs, Matches req.StartRelation o)
  ∧ (∀ req nsdef ttu objs, processTupleToUsersetF env fuel req nsdef ttu = .ok objs →
      ∀ o ∈ objs, Matches req.StartRelation o)
  ∧ (∀ req ttu onr dr objs, ttuBranch env fuel req ttu onr dr = .ok objs →
      ∀ o ∈ objs, Matches req.StartRelation o)
  ∧ (∀ req cu objs, lookupComputedF env fuel req cu = .ok objs →
      ∀ o ∈ objs, Matches req.StartRelation o)

/-! ONRSet lemmas. -/

theorem ONRSet.mem_Add {s : ONRSet} {x o : ObjectAndRelation} :
    o ∈ ((ONRSet.Add s x).2).onrs ↔ o ∈ s.onrs ∨ o = x := by
  by_cases h : x ∈ s.onrs
  · simp only [ONRSet.Add, if_pos h]
    constructor
    · exact fun ho => Or.inl ho
    · rintro (ho | rfl)
      · exact ho
      · exact h
  · simp only [ONRSet.Add, if_neg h]
    simp [List.mem_append]

theorem ONRSet.mem_Update {l : List ObjectAndRelation} :
    ∀ {s : ONRSet} {o : ObjectAndRelation},
      o ∈ (ONRSet.Update s l).onrs ↔ o ∈ s.onrs ∨ o ∈ l := by
  induction l with
  | nil => intro s o; simp [ONRSet.Update]
  | cons a t ih =>
    intro s o
    show o ∈ (ONRSet.Update (ONRSet.Add s a).2 t).onrs ↔ _
    rw [ih, ONRSet.mem_Add]
    simp [or_assoc]

theorem ONRSet.mem_With {s : ONRSet} {x o : ObjectAndRelation} :
    o ∈ (ONRSet.With s x).onrs ↔ o ∈ s.onrs ∨ o = x :=
  ONRSet.mem_Add

theorem ONRSet.Add_nodup {s : ONRSet} {x : ObjectAndRelation} (h : s.onrs.Nodup) :
    ((ONRSet.Add s x).2).onrs.Nodup := by
  by_cases hx : x ∈ s.onrs
  · simpa only [ONRSet.Add, if_pos hx] using h
  · simp only [ONRSet.Add, if_neg hx]
    simp [List.nodup_append, h, hx]

theorem ONRSet.Update_nodup {l : List ObjectAndRelation} :
    ∀ {s : ONRSet}, s.onrs.Nodup → (ONRSet.Update s l).onrs.Nodup := by
  induction l with
  | nil => intro s h; simpa [ONRSet.Update] using h
  | cons a t ih =>
    intro s h
    exact ih (ONRSet.Add_nodup h)

theorem ONRSet.head_Add {s : ONRSet} {x t : ObjectAndRelation}
    (h : s.onrs.head? = some t) : ((ONRSet.Add s x).2).onrs.head? = some t := by
  by_cases hx : x ∈ s.onrs
  · simpa only [ONRSet.Add, if_pos hx] using h
  · simp only [ONRSet.Add, if_neg hx]
    cases hs : s.onrs with
    | nil => rw [hs] at h; simp at h
    | cons a r =>
      rw [hs] at h
      simpa using h

theorem ONRSet.head_Update {l : List ObjectAndRelation} :
    ∀ {s : ONRSet} {t : ObjectAndRelation},
      s.onrs.head? = some t → (ONRSet.Update s l).onrs.head? = some t := by
  induction l with
  | nil => intro s t h; simpa [ONRSet.Update] using h
  | cons a r ih =>
    intro s t h
    exact ih (ONRSet.head_Add h)

theorem ONRSet.mem_Intersect {s t : ONRSet} {o : ObjectAndRelation} :
    o ∈ (ONRSet.Intersect s t).onrs ↔ o ∈ s.onrs ∧ o ∈ t.onrs := by
  simp [ONRSet.Intersect, List.mem_filter]

theorem ONRSet.mem_Subtract {s t : ONRSet} {o : ObjectAndRelation} :
    o ∈ (ONRSet.Subtract s t).onrs ↔ o ∈ s.onrs ∧ o ∉ t.onrs := by
  simp [ONRSet.Subtract, List.mem_filter]

theorem ONRSet.Length_eq_zero {s : ONRSet} (h : ONRSet.Length s = 0) : s.onrs = [] :=
  List.length_eq_zero.mp h

/-! limitedSlice lemmas. -/

theorem limitedSlice_length (l : List ObjectAndRelation) (lim : Nat) :
    (limitedSlice l lim).length ≤ lim := by
  unfold limitedSlice
  split
  · simp
  · omega

theorem mem_limitedSlice {l : List ObjectAndRelation} {lim : Nat} {o : ObjectAndRelation}
    (h : o ∈ limitedSlice l lim) : o ∈ l := by
  unfold limitedSlice at h
  split at h
  · exact List.mem_of_mem_take h
  · exact h

theorem limitedSlice_nodup {l : List ObjectAndRelation} {lim : Nat} (h : l.Nodup) :
    (limitedSlice l lim).Nodup := by
  unfold limitedSlice
  split
  · exact h.sublist (List.take_sublist lim l)
  · exact h

theorem head_mem_limitedSlice {l : List ObjectAndRelation} {lim : Nat}
    {t : ObjectAndRelation} (h : l.head? = some t) (hlim : 1 ≤ lim) :
    t ∈ limitedSlice l lim := by
  cases l with
  | nil => simp at h
  | cons a r =>
    simp only [List.head?_cons, Option.some.injEq] at h
    subst h
    unfold limitedSlice
    split
    · cases lim with
      | zero => omega
      | succ k => simp [List.take_succ_cons]
    · simp

/-! collectNew lemmas. -/

theorem collectNew_fst_mem :
    ∀ (l : List ObjectAndRelation) (s tc : ONRSet) (o : ObjectAndRelation),
      o ∈ ((collectNew s tc l).1).onrs ↔ o ∈ s.onrs ∨ o ∈ l := by
  intro l
  induction l with
  | nil => intro s tc o; simp [collectNew]
  | cons a rest ih =>
    intro s tc o
    rw [collectNew, ih]
    rw [ONRSet.mem_Add]
    simp [or_assoc]

theorem collectNew_fst_nodup :
    ∀ (l : List ObjectAndRelation) (s tc : ONRSet), s.onrs.Nodup →
      ((collectNew s tc l).1).onrs.Nodup := by
  intro l
  induction l with
  | nil => intro s tc h; simpa [collectNew] using h
  | cons a rest ih =>
    intro s tc h
    rw [collectNew]
    exact ih _ _ (ONRSet.Add_nodup h)

theorem collectNew_fst_head :
    ∀ (l : List ObjectAndRelation) (s tc : ONRSet) (t : ObjectAndRelation),
      s.onrs.head? = some t → ((collectNew s tc l).1).onrs.head? = some t := by
  intro l
  induction l with
  | nil => intro s tc t h; simpa [collectNew] using h
  | cons a rest ih =>
    intro s tc t h
    rw [collectNew]
    exact ih _ _ _ (ONRSet.head_Add h)

/-! Iterator-loop lemmas. -/

theorem directLoop_mem :
    ∀ (tuples : List RelationTuple) (s : ONRSet) (lim : Nat) (o : ObjectAndRelation),
      o ∈ ((directLoop s tuples lim).1).onrs →
      o ∈ s.onrs ∨ ∃ t ∈ tuples, o = t.objectAndRelation := by
  intro tuples
  induction tuples with
  | nil => intro s lim o h; simp [directLoop] at h; exact Or.inl h
  | cons tpl rest ih =>
    intro s lim o h
    rw [directLoop] at h
    split at h
    · simp only at h
      rcases ONRSet.mem_Add.mp h with hs | rfl
      · exact Or.inl hs
      · exact Or.inr ⟨tpl, by simp⟩
    · rcases ih _ _ _ h with hs | ⟨t, ht, rfl⟩
      · rcases ONRSet.mem_Add.mp hs with hs2 | rfl
        · exact Or.inl hs2
        · exact Or.inr ⟨tpl, by simp⟩
      · exact Or.inr ⟨t, by simp [ht]⟩

theorem ttuLoop_mem :
    ∀ (tuples : List RelationTuple) (ns rel : String) (s : ONRSet) (lim : Nat)
      (out : ONRSet), ttuLoop ns rel s tuples lim = .ok out →
      ∀ o ∈ out.onrs, o ∈ s.onrs ∨ (o.Namespace = ns ∧ o.Relation = rel) := by
  intro tuples
  induction tuples with
  | nil =>
    intro ns rel s lim out h o ho
    rw [ttuLoop] at h
    cases h
    exact Or.inl ho
  | cons tpl rest ih =>
    intro ns rel s lim out h o ho
    rw [ttuLoop] at h
    split at h
    · cases h
    · dsimp only at h
      split at h
      · cases h
        rcases ONRSet.mem_Add.mp ho with hs | rfl
        · exact Or.inl hs
        · exact Or.inr ⟨rfl, rfl⟩
      · rcases ih _ _ _ _ _ h o ho with hs | hm
        · rcases ONRSet.mem_Add.mp hs with hs2 | rfl
          · exact Or.inl hs2
          · exact Or.inr ⟨rfl, rfl⟩
        · exact Or.inr hm

theorem rewriteComputed_mem :
    ∀ (l : List ObjectAndRelation) (ns rel : String) (out : List ObjectAndRelation),
      rewriteComputed ns rel l = .ok out →
      ∀ o ∈ out, o.Namespace = ns ∧ o.Relation = rel := by
  intro l
  induction l with
  | nil =>
    intro ns rel out h o ho
    rw [rewriteComputed] at h
    cases h
    simp at ho
  | cons a rest ih =>
    intro ns rel out h o ho
    rw [rewriteComputed] at h
    split at h
    · cases h
    · rename_i hns
      split at h
      · cases h
      · rename_i tail htail
        cases h
        rcases List.mem_cons.mp ho with rfl | hro
        · exact ⟨by simpa using hns, rfl⟩
        · exact ih _ _ _ htail o hro

/-! Reducer subset lemmas: each combinator only returns objects drawn from
its successful inputs. -/

theorem lookupAnyLoop_sub :
    ∀ (results : List LookupResult) (limit : Nat) (s : ONRSet)
      (objs : List ObjectAndRelation), lookupAnyLoop limit s results = .ok objs →
      ∀ o ∈ objs, o ∈ s.onrs ∨ ∃ l, LookupResult.ok l ∈ results ∧ o ∈ l := by
  intro results
  induction results with
  | nil =>
    intro limit s objs h o ho
    rw [lookupAnyLoop] at h
    cases h
    exact Or.inl (mem_limitedSlice ho)
  | cons r rest ih =>
    intro limit s objs h o ho
    cases r with
    | err e => rw [lookupAnyLoop] at h; cases h
    | ok resolved =>
      rw [lookupAnyLoop] at h
      try dsimp only at h
      split at h
      · cases h
        rcases ONRSet.mem_Update.mp (mem_limitedSlice ho) with hs | hl
        · exact Or.inl hs
        · exact Or.inr ⟨resolved, by simp, hl⟩
      · rcases ih _ _ _ h o ho with hs | ⟨l, hl, hol⟩
        · rcases ONRSet.mem_Update.mp hs with hs2 | hl
          · exact Or.inl hs2
          · exact Or.inr ⟨resolved, by simp, hl⟩
        · exact Or.inr ⟨l, by simp [hl], hol⟩

theorem LookupAnyF_sub : ReducerSub LookupAnyF := by
  intro limit results objs h o ho
  rcases lookupAnyLoop_sub results limit ONRSet.empty objs h o ho with hs | hex
  · simp [ONRSet.empty] at hs
  · exact hex

theorem lookupAllLoop_sub :
    ∀ (results : List LookupResult) (s : ONRSet) (objs : List ObjectAndRelation),
      lookupAllLoop s results = .ok objs → ∀ o ∈ objs, o ∈ s.onrs := by
  intro results
  induction results with
  | nil =>
    intro s objs h o ho
    rw [lookupAllLoop] at h
    cases h
    exact ho
  | cons r rest ih =>
    intro s objs h o ho
    cases r with
    | err e => rw [lookupAllLoop] at h; cases h
    | ok resolved =>
      rw [lookupAllLoop] at h
      try dsimp only at h
      split at h
      · cases h; simp at ho
      · exact (ONRSet.mem_Intersect.mp (ih _ _ h o ho)).1

theorem LookupAllF_sub : ReducerSub LookupAllF := by
  intro limit results objs h o ho
  match results, h with
  | [], h => cases h; simp at ho
  | .err e :: rest, h => cases h
  | .ok resolved :: rest, h =>
    simp only [LookupAllF] at h
    split at h
    · cases h; simp at ho
    · have := lookupAllLoop_sub rest _ objs h o ho
      rcases ONRSet.mem_Update.mp this with hs | hl
      · simp [ONRSet.empty] at hs
      · exact ⟨resolved, by simp, hl⟩

theorem lookupExcludeLoop_sub :
    ∀ (others : List LookupResult) (limit : Nat) (s e : ONRSet)
      (objs : List ObjectAndRelation), lookupExcludeLoop limit s e others = .ok objs →
      ∀ o ∈ objs, o ∈ s.onrs := by
  intro others
  induction others with
  | nil =>
    intro limit s e objs h o ho
    rw [lookupExcludeLoop] at h
    cases h
    exact (ONRSet.mem_Subtract.mp (mem_limitedSlice ho)).1
  | cons r rest ih =>
    intro limit s e objs h o ho
    cases r with
    | err e2 => rw [lookupExcludeLoop] at h; cases h
    | ok resolved =>
      rw [lookupExcludeLoop] at h
      exact ih _ _ _ _ h o ho

theorem LookupExcludeF_sub : ReducerSub LookupExcludeF := by
  intro limit results objs h o ho
  match results, h with
  | [], h => cases h
  | .err e :: rest, h => cases h
  | .ok resolved :: rest, h =>
    simp only [LookupExcludeF] at h
    have := lookupExcludeLoop_sub rest limit _ ONRSet.empty objs h o ho
    rcases ONRSet.mem_Update.mp this with hs | hl
    · simp [ONRSet.empty] at hs
    · exact ⟨resolved, by simp, hl⟩

/-- A reducer respecting ReducerSub turns good inputs into good outputs. -/
theorem reducer_good {reducer : LookupReducer} {sr : RelationReference} {limit : Nat}
    {results : List LookupResult} {objs : List ObjectAndRelation}
    (hsub : ReducerSub reducer) (hgood : ∀ r ∈ results, ResultGood sr r)
    (h : reducer limit results = .ok objs) : ∀ o ∈ objs, Matches sr o := by
  intro o ho
  rcases hsub limit results objs h o ho with ⟨l, hl, hol⟩
  exact hgood _ hl l rfl o hol

/-- The target-direct branch only returns objects on the start relation,
thanks to the reverse query's WithObjectRelation filter. -/
theorem directTargetBranch_good {env : Env} (hrev : EnvRevOk env) (req : LookupRequest) :
    ResultGood req.StartRelation (directTargetBranch env req) := by
  intro l h o ho
  unfold directTargetBranch at h
  split at h
  · cases h
  · rename_i it hit
    split at h
    · cases h; simp at ho
    · cases h
      rcases directLoop_mem it.tuples ONRSet.empty req.Limit o ho with hs | ⟨t, ht, rfl⟩
      · simp [ONRSet.empty, ONRSet.AsSlice] at hs
      · exact hrev _ _ _ _ _ hit t ht

/-- Every function of the resolver only ever resolves ONRs on its request's
start relation, provided the two datastore query builders respect their
filters. -/
theorem invAt_all (env : Env) (hrev : EnvRevOk env) (hfwd : EnvFwdOk env) :
    ∀ fuel, InvAt env fuel := by
  intro fuel
  induction fuel with
  | zero =>
    refine ⟨?_, ?_, ?_, ?_, ?_, ?_, ?_, ?_, ?_, ?_⟩
    · intro req objs h; simp [lookupF] at h
    · intro req objSet toCheck objs hg h; simp [lookupLoopF] at h
    · intro req objs h; simp [dispatchF] at h
    · intro req objs h; simp [lookupDirectF] at h
    · intro req ds adt objs h; simp [inferredBranch] at h
    · intro req nsdef usr objs h
      cases usr <;> simp [processRewriteF] at h
    · intro req nsdef so reducer objs hred h; simp [processSetOperationF] at h
    · intro req nsdef ttu objs h; simp [processTupleToUsersetF] at h
    · intro req ttu onr dr objs h; simp [ttuBranch] at h
    · intro req cu objs h; simp [lookupComputedF] at h
  | succ fuel ih =>
    obtain ⟨ihLookup, ihLoop, ihDispatch, ihDirect, ihInferred, ihRewrite, ihSetOp,
      ihTTU, ihTTUBranch, ihComputed⟩ := ih
    refine ⟨?_, ?_, ?_, ?_, ?_, ?_, ?_, ?_, ?_, ?_⟩
    · -- lookupF
      intro req objs h
      rw [lookupF] at h
      dsimp only at h
      split at h
      · simp [ResolveError] at h
      · rename_i nsdef hns
        split at h
        · simp [ResolveError] at h
        · rename_i relation hrel
          split at h
          · simp [ResolveError] at h
          · rename_i resolved hany
            have hreqgood : ResultGood req.StartRelation
                (match relation.usersetRewrite with
                 | some rewrite => processRewriteF env fuel req nsdef rewrite
                 | none => lookupDirectF env fuel req) := by
              cases hx : relation.usersetRewrite with
              | some rewrite =>
                simp only [hx]
                intro l hl o hol
                exact ihRewrite _ _ _ _ hl o hol
              | none =>
                simp only [hx]
                intro l hl o hol
                exact ihDirect _ _ hl o hol
            have hres : ∀ o ∈ resolved, Matches req.StartRelation o := by
              refine reducer_good LookupAnyF_sub ?_ hany
              intro r hr
              rcases List.mem_singleton.mp hr with rfl
              exact hreqgood
            refine ihLoop req _ _ objs ?_ h
            intro o ho
            rcases ONRSet.mem_Update.mp ho with hs | hr
            · by_cases hc : req.StartRelation.Namespace = req.TargetONR.Namespace ∧
                  req.StartRelation.Relation = req.TargetONR.Relation
              · rw [if_pos hc] at hs
                rcases ONRSet.mem_With.mp hs with hs2 | rfl
                · simp [ONRSet.empty] at hs2
                · exact ⟨hc.1.symm, hc.2.symm⟩
              · rw [if_neg hc] at hs
                simp [ONRSet.empty] at hs
            · exact hres o hr
    · -- lookupLoopF
      intro req objSet toCheck objs hgood h
      rw [lookupLoopF] at h
      split at h
      · cases h
        intro o ho
        exact hgood o (mem_limitedSlice ho)
      · dsimp only at h
        split at h
        · cases h
          intro o ho
          exact hgood o (mem_limitedSlice ho)
        · split at h
          · simp [ResolveError] at h
          · rename_i resolvedObjects hany
            have hres : ∀ o ∈ resolvedObjects, Matches req.StartRelation o := by
              refine reducer_good LookupAnyF_sub ?_ hany
              intro r hr
              rcases List.mem_map.mp hr with ⟨obj, hobj, rfl⟩
              intro l hl o hol
              exact ihDispatch _ _ hl o hol
            refine ihLoop req _ _ objs ?_ h
            intro o ho
            rcases (collectNew_fst_mem _ _ _ _).mp ho with hs | hr
            · exact hgood o hs
            · exact hres o hr
    · -- dispatchF
      intro req objs h
      rw [dispatchF] at h
      split at h
      · cases h
      · exact ihLookup req objs h
    · -- lookupDirectF
      intro req objs h
      rw [lookupDirectF] at h
      split at h
      · simp [ResolveError] at h
      · rename_i isDirectAllowed hall
        split at h
        · -- isDirectAllowed = Valid: requests start with the target branch
          split at h
          · simp [ResolveError] at h
          · rename_i allowedDirect hads
            dsimp only at h
            refine reducer_good LookupAnyF_sub ?_ h
            intro r hr
            rcases List.mem_cons.mp hr with rfl | hrm
            · exact directTargetBranch_good hrev req
            · rcases List.mem_map.mp hrm with ⟨adt, hadt, rfl⟩
              intro l hl o hol
              exact ihInferred _ _ _ _ hl o hol
        · -- target not directly allowed: only inferred requests
          split at h
          · simp [ResolveError] at h
          · rename_i allowedDirect hads
            dsimp only at h
            split at h
            · cases h
              intro o ho
              simp at ho
            · refine reducer_good LookupAnyF_sub ?_ h
              intro r hr
              rcases List.mem_map.mp hr with ⟨adt, hadt, rfl⟩
              intro l hl o hol
              exact ihInferred _ _ _ _ hl o hol
    · -- inferredBranch
      intro req ds adt objs h
      rw [inferredBranch] at h
      try dsimp only at h
      split at h
      · cases h
      · split at h
        · split at h
          · cases h
          · rename_i it hq
            cases h
            intro o ho
            rcases directLoop_mem it.tuples ONRSet.empty req.Limit o ho with hs | ⟨t, ht, rfl⟩
            · simp [ONRSet.empty] at hs
            · have := hfwd _ _ _ _ _ _ hq t ht
              exact ⟨this.1, this.2⟩
        · cases h
          intro o ho
          simp [ONRSet.empty, ONRSet.AsSlice] at ho
    · -- processRewriteF
      intro req nsdef usr objs h
      cases usr with
      | union so =>
        rw [processRewriteF] at h
        exact ihSetOp _ _ _ _ _ LookupAnyF_sub h
      | intersection so =>
        rw [processRewriteF] at h
        exact ihSetOp _ _ _ _ _ LookupAllF_sub h
      | exclusion so =>
        rw [processRewriteF] at h
        exact ihSetOp _ _ _ _ _ LookupExcludeF_sub h
    · -- processSetOperationF
      intro req nsdef so reducer objs hred h
      rw [processSetOperationF] at h
      refine reducer_good hred ?_ h
      intro r hr
      rcases List.mem_map.mp hr with ⟨child, hchild, rfl⟩
      cases child with
      | xthis =>
        intro l hl o hol
        exact ihDirect _ _ hl o hol
      | computedUserset cu =>
        intro l hl o hol
        exact ihComputed _ _ _ hl o hol
      | usersetRewrite rw2 =>
        intro l hl o hol
        exact ihRewrite _ _ _ _ hl o hol
      | tupleToUserset ttu =>
        intro l hl o hol
        exact ihTTU _ _ _ _ hl o hol
    · -- processTupleToUsersetF
      intro req nsdef ttu objs h
      rw [processTupleToUsersetF] at h
      dsimp only at h
      split at h
      · simp only [ResolvedObjects] at h
        cases h
        intro o ho
        simp at ho
      · split at h
        · simp [ResolveError] at h
        · split at h
          · simp [ResolveError] at h
          · split at h
            · simp only [ResolvedObjects] at h
              cases h
              intro o ho
              simp at ho
            · refine reducer_good LookupAnyF_sub ?_ h
              intro r hr
              rcases List.mem_map.mp hr with ⟨dr, hdr, rfl⟩
              intro l hl o hol
              exact ihTTUBranch _ _ _ _ _ hl o hol
    · -- ttuBranch
      intro req ttu onr dr objs h
      rw [ttuBranch] at h
      try dsimp only at h
      split at h
      · cases h
      · rename_i resolvedObjects hany
        split at h
        · rename_i hlen
          cases h
          intro o ho
          rw [List.length_eq_zero.mp hlen] at ho
          simp at ho
        · split at h
          · cases h
          · split at h
            · split at h
              · cases h
              · rename_i it hq
                split at h
                · cases h
                · rename_i objects hloop
                  cases h
                  intro o ho
                  rcases ttuLoop_mem it.tuples _ _ ONRSet.empty req.Limit objects hloop o ho
                    with hs | hm
                  · simp [ONRSet.empty] at hs
                  · exact ⟨hm.1, hm.2⟩
            · cases h
              intro o ho
              simp at ho
    · -- lookupComputedF
      intro req cu objs h
      rw [lookupComputedF] at h
      dsimp only [LookupOneF] at h
      split at h
      · simp [ResolveError] at h
      · rename_i resolvedObjects hdisp
        split at h
        · simp [ResolveError] at h
        · rename_i rewrittenResolved hrw
          simp only [ResolvedObjects] at h
          cases h
          intro o ho
          have := rewriteComputed_mem _ _ _ _ hrw o ho
          exact ⟨this.1, this.2⟩

/-- The closure loop returns a duplicate-free list no longer than the limit
whenever the accumulated set is duplicate-free. -/
theorem lookupLoopF_bound (env : Env) :
    ∀ (fuel : Nat) (req : LookupRequest) (objSet toCheck : ONRSet)
      (objs : List ObjectAndRelation), objSet.onrs.Nodup →
      lookupLoopF env fuel req objSet toCheck = .ok objs →
      objs.Nodup ∧ objs.length ≤ req.Limit := by
  intro fuel
  induction fuel with
  | zero => intro req s tc objs hnd h; simp [lookupLoopF] at h
  | succ fuel ih =>
    intro req s tc objs hnd h
    rw [lookupLoopF] at h
    split at h
    · cases h
      exact ⟨limitedSlice_nodup hnd, limitedSlice_length _ _⟩
    · dsimp only at h
      split at h
      · cases h
        exact ⟨limitedSlice_nodup hnd, limitedSlice_length _ _⟩
      · split at h
        · simp [ResolveError] at h
        · exact ih req _ _ objs (collectNew_fst_nodup _ _ _ hnd) h

/-- The closure loop keeps the head of the accumulated set in the final list
as long as the limit admits at least one object. -/
theorem lookupLoopF_head (env : Env) :
    ∀ (fuel : Nat) (req : LookupRequest) (objSet toCheck : ONRSet)
      (objs : List ObjectAndRelation) (t : ObjectAndRelation), 1 ≤ req.Limit →
      objSet.onrs.head? = some t →
      lookupLoopF env fuel req objSet toCheck = .ok objs → t ∈ objs := by
  intro fuel
  induction fuel with
  | zero => intro req s tc objs t hlim hh h; simp [lookupLoopF] at h
  | succ fuel ih =>
    intro req s tc objs t hlim hh h
    rw [lookupLoopF] at h
    split at h
    · cases h
      exact head_mem_limitedSlice hh hlim
    · dsimp only at h
      split at h
      · cases h
        exact head_mem_limitedSlice hh hlim
      · split at h
        · simp [ResolveError] at h
        · exact ih req _ _ objs t hlim (collectNew_fst_head _ _ _ _ hh) h

/-- Appending a duplicate-free list of fresh elements is what Update does. -/
theorem ONRSet.Update_append :
    ∀ (l : List ObjectAndRelation) (s : ONRSet), l.Nodup → (∀ a ∈ l, a ∉ s.onrs) →
      (ONRSet.Update s l).onrs = s.onrs ++ l := by
  intro l
  induction l with
  | nil => intro s hnd hf; simp [ONRSet.Update]
  | cons a t ih =>
    intro s hnd hf
    show (ONRSet.Update (ONRSet.Add s a).2 t).onrs = _
    have ha : a ∉ s.onrs := hf a (by simp)
    have hadd : (ONRSet.Add s a).2.onrs = s.onrs ++ [a] := by
      simp [ONRSet.Add, ha]
    rw [ih _ (List.nodup_cons.mp hnd).2 ?fresh, hadd, List.append_assoc]
    · simp
    case fresh =>
      intro b hb
      rw [hadd]
      simp only [List.mem_append, List.mem_singleton]
      rintro (hbs | rfl)
      · exact hf b (by simp [hb]) hbs
      · exact (List.nodup_cons.mp hnd).1 hb

theorem ONRSet.Update_empty {l : List ObjectAndRelation} (h : l.Nodup) :
    (ONRSet.Update ONRSet.empty l).onrs = l := by
  rw [ONRSet.Update_append l ONRSet.empty h (by simp [ONRSet.empty])]
  simp [ONRSet.empty]

/-- Membership characterisation for the intersection loop of LookupAll. -/
theorem lookupAllLoop_char :
    ∀ (results : List LookupResult) (s : ONRSet),
      (∀ r ∈ results, ∃ l, r = .ok l) →
      ∃ out, lookupAllLoop s results = .ok out ∧
        ∀ o, o ∈ out ↔ (o ∈ s.onrs ∧ ∀ l, LookupResult.ok l ∈ results → o ∈ l) := by
  intro results
  induction results with
  | nil =>
    intro s hok
    refine ⟨s.AsSlice, by rw [lookupAllLoop], ?_⟩
    intro o
    simp [ONRSet.AsSlice]
  | cons r rest ih =>
    intro s hok
    obtain ⟨resolved, rfl⟩ := hok r (by simp)
    rw [lookupAllLoop]
    try dsimp only
    have hmem : ∀ o, o ∈ (ONRSet.Intersect s (ONRSet.Update ONRSet.empty resolved)).onrs ↔
        o ∈ s.onrs ∧ o ∈ resolved := by
      intro o
      rw [ONRSet.mem_Intersect, ONRSet.mem_Update]
      simp [ONRSet.empty]
    split
    · rename_i hzero
      refine ⟨[], rfl, ?_⟩
      intro o
      simp only [List.not_mem_nil, false_iff]
      rintro ⟨hs, hall⟩
      have : o ∈ (ONRSet.Intersect s (ONRSet.Update ONRSet.empty resolved)).onrs :=
        (hmem o).mpr ⟨hs, hall resolved (by simp)⟩
      rw [ONRSet.Length_eq_zero hzero] at this
      simp at this
    · obtain ⟨out, hout, hchar⟩ := ih _ (fun r hr => hok r (by simp [hr]))
      refine ⟨out, hout, ?_⟩
      intro o
      rw [hchar o, hmem o]
      constructor
      · rintro ⟨⟨hs, hres⟩, hrest⟩
        refine ⟨hs, ?_⟩
        intro l hl
        rcases List.mem_cons.mp hl with heq | hl2
        · cases heq; exact hres
        · exact hrest l hl2
      · rintro ⟨hs, hall⟩
        exact ⟨⟨hs, hall resolved (by simp)⟩, fun l hl => hall l (by simp [hl])⟩

/-- Claim C1: every ONR in the resolved list of a successful lookup carries
the request's start relation namespace and relation, given that the two
datastore query builders respect their object-side filters.  The
computed-userset rewrite (lookup.go 508-523) and the TTU object construction
(459-463) are the per-handler cases inside the proof. -/
theorem lookup_resolved_on_start_relation (env : Env) (hrev : EnvRevOk env)
    (hfwd : EnvFwdOk env) (fuel : Nat) (req : LookupRequest)
    (objs : List ObjectAndRelation) (h : lookupF env fuel req = .ok objs) :
    ∀ o ∈ objs, o.Namespace = req.StartRelation.Namespace ∧
      o.Relation = req.StartRelation.Relation := by
  intro o ho
  exact (invAt_all env hrev hfwd fuel).1 req objs h o ho

/-- Witness for C1 at the self-match request req0 under env0. -/
theorem lookup_resolved_on_start_relation_witness :
    EnvRevOk env0 ∧ EnvFwdOk env0 ∧ lookupF env0 5 req0 = .ok [alice] ∧
      (∀ o ∈ [alice], o.Namespace = req0.StartRelation.Namespace ∧
        o.Relation = req0.StartRelation.Relation) := by
  have h1 : EnvRevOk env0 := by
    intro subject rev ns rel it h t ht
    have h2 : Except.ok ({ tuples := [], errAfter := none } : TupleIterator) =
        Except.ok it := h
    injection h2 with h3
    rw [← h3] at ht
    simp at ht
  have h2 : EnvFwdOk env0 := by
    intro ns rev rel us lim it h t ht
    have h2 : Except.ok ({ tuples := [], errAfter := none } : TupleIterator) =
        Except.ok it := h
    injection h2 with h3
    rw [← h3] at ht
    simp at ht
  have h3 : lookupF env0 5 req0 = .ok [alice] := by decide
  exact ⟨h1, h2, h3, lookup_resolved_on_start_relation env0 h1 h2 5 req0 [alice] h3⟩

/-- Claim C2: a successful lookup resolves a duplicate-free list of at most
limit ONRs (the driver truncates through limitedSlice, lookup.go 125). -/
theorem lookup_resolved_nodup_and_bounded (env : Env) (fuel : Nat)
    (req : LookupRequest) (objs : List ObjectAndRelation)
    (h : lookupF env fuel req = .ok objs) :
    objs.Nodup ∧ objs.length ≤ req.Limit := by
  cases fuel with
  | zero => simp [lookupF] at h
  | succ fuel =>
    rw [lookupF] at h
    dsimp only at h
    split at h
    · simp [ResolveError] at h
    · split at h
      · simp [ResolveError] at h
      · split at h
        · simp [ResolveError] at h
        · rename_i resolved hany
          refine lookupLoopF_bound env fuel req _ _ objs ?_ h
          refine ONRSet.Update_nodup ?_
          by_cases hc : req.StartRelation.Namespace = req.TargetONR.Namespace ∧
              req.StartRelation.Relation = req.TargetONR.Relation
          · rw [if_pos hc]
            simp [ONRSet.With, ONRSet.Add, ONRSet.empty]
          · rw [if_neg hc]
            simp [ONRSet.empty]

/-- Witness for C2 at req0 under env0. -/
theorem lookup_resolved_nodup_and_bounded_witness :
    lookupF env0 5 req0 = .ok [alice] ∧
      ([alice].Nodup ∧ [alice].length ≤ req0.Limit) :=
  ⟨by decide, lookup_resolved_nodup_and_bounded env0 5 req0 [alice] (by decide)⟩

/-- Claim C3: a dispatched request with depth_remaining zero yields the
depth-exceeded error; the environment is arbitrary and the result does not
depend on it, so no datastore query is consulted.  The depth check lives in
the dispatch layer, modelled from the spec (section 6) since it is not under
src/. -/
theorem dispatch_depth_zero (env : Env) (fuel : Nat) (req : LookupRequest)
    (h : req.DepthRemaining = 0) :
    dispatchF env (fuel + 1) req = .err .depthExceeded := by
  rw [dispatchF, if_pos h]

/-- Witness for C3 at req0d under env0. -/
theorem dispatch_depth_zero_witness :
    req0d.DepthRemaining = 0 ∧ dispatchF env0 1 req0d = .err .depthExceeded :=
  ⟨rfl, dispatch_depth_zero env0 0 req0d rfl⟩

/-- Claim C4 (code-bug evidence): under env1, req1's structural pass finds
doc:1 and the closure loop's combined any then fails with the dispatcher's
depth-exceeded error, but lookup returns ResolveError(err) with the stale
outer err - nil at that point - so the Go code panics instead of returning
the iteration's error (lookup.go 107-110). -/
theorem closure_loop_stale_error :
    lookupF env1 4 req1 = .err .nilErrorPanic ∧
      lookupF env1 4 req1 ≠ .err .depthExceeded := by decide

/-- Claim C5: the TTU handler returns the empty set, without error, for a
request whose start relation reference is already on the TTU stack; the
result is the same for every environment and fuel, so no sub-lookup is
dispatched and no collaborator consulted (lookup.go 326-335). -/
theorem ttu_cycle_cut (env : Env) (fuel : Nat) (req : LookupRequest)
    (nsdef : NamespaceDefinition) (ttu : TupleToUserset)
    (h : ({ Namespace := req.StartRelation.Namespace, ObjectId := "",
            Relation := req.StartRelation.Relation } : ObjectAndRelation)
          ∈ req.TTUStack.onrs) :
    processTupleToUsersetF env (fuel + 1) req nsdef ttu = .ok [] := by
  rw [processTupleToUsersetF]
  dsimp only
  rw [if_pos h]
  rfl

/-- Witness for C5 at reqT under env0. -/
theorem ttu_cycle_cut_witness :
    (({ Namespace := "document", ObjectId := "", Relation := "viewer" } :
        ObjectAndRelation) ∈ reqT.TTUStack.onrs) ∧
      processTupleToUsersetF env0 3 reqT nsdef0 ttu0 = .ok [] :=
  ⟨by decide, ttu_cycle_cut env0 2 reqT nsdef0 ttu0 (by decide)⟩

/-- Claim C6 counterexample: req2's start relation document#viewer is on the
direct stack, yet the direct handler still queries the directly-allowed
target branch and returns doc:1 - a non-empty success, so such a request
neither returns the empty set nor suppresses all sub-lookups. -/
theorem direct_stack_counterexample :
    (({ Namespace := "document", ObjectId := "", Relation := "viewer" } :
        ObjectAndRelation) ∈ req2.DirectStack.onrs) ∧
      lookupDirectF env1 3 req2 = .ok [doc1viewer] ∧
      lookupDirectF env1 3 req2 ≠ .ok [] := by decide

/-- Claim C6 amended: the direct handler skips an inferred-direct sub-lookup
exactly for allowed subject types that are the ellipsis, the start relation
itself, or already on the extended direct stack; when every allowed subject
type is skipped and the target is not directly allowed, the handler returns
the empty set, not an error. -/
theorem direct_all_skipped_empty (env : Env) (fuel : Nat) (req : LookupRequest)
    (allowed : List RelationReference)
    (htarget : env.IsAllowedDirectRelation req.StartRelation.Namespace
        req.StartRelation.Relation req.TargetONR.Namespace req.TargetONR.Relation =
        .ok .DirectRelationNotValid)
    (hallowed : env.AllowedDirectRelations req.StartRelation.Namespace
        req.StartRelation.Relation = .ok allowed)
    (hskip : ∀ adt ∈ allowed, adt.Relation = Ellipsis ∨
        (adt.Namespace = req.StartRelation.Namespace ∧
          adt.Relation = req.StartRelation.Relation) ∨
        ({ Namespace := adt.Namespace, ObjectId := "", Relation := adt.Relation } :
            ObjectAndRelation)
          ∈ (ONRSet.With req.DirectStack
              { Namespace := req.StartRelation.Namespace, ObjectId := "",
                Relation := req.StartRelation.Relation }).onrs) :
    lookupDirectF env (fuel + 1) req = .ok [] := by
  rw [lookupDirectF, htarget, hallowed]
  dsimp only
  have hfilter : List.filter (fun adt =>
      !(adt.Relation == Ellipsis) &&
      !(adt.Namespace == req.StartRelation.Namespace &&
        adt.Relation == req.StartRelation.Relation) &&
      !(ONRSet.Has (ONRSet.With req.DirectStack
          { Namespace := req.StartRelation.Namespace, ObjectId := "",
            Relation := req.StartRelation.Relation })
          { Namespace := adt.Namespace, ObjectId := "", Relation := adt.Relation }))
      allowed = [] := by
    rw [List.filter_eq_nil_iff]
    intro adt hadt
    rcases hskip adt hadt with h1 | h2 | h3
    · simp [h1]
    · simp [h2.1, h2.2]
    · simp [ONRSet.Has, h3]
  simp only [hfilter]
  simp

/-- Witness for the amended C6 at req3 under env3: all three allowed subject
types are skipped and the handler returns the empty set. -/
theorem direct_all_skipped_empty_witness :
    (∀ adt ∈ [({ Namespace := "document", Relation := "viewer" } : RelationReference),
        { Namespace := "group", Relation := "member" },
        { Namespace := "user", Relation := "..." }],
      adt.Relation = Ellipsis ∨
        (adt.Namespace = req3.StartRelation.Namespace ∧
          adt.Relation = req3.StartRelation.Relation) ∨
        ({ Namespace := adt.Namespace, ObjectId := "", Relation := adt.Relation } :
            ObjectAndRelation)
          ∈ (ONRSet.With req3.DirectStack
              { Namespace := req3.StartRelation.Namespace, ObjectId := "",
                Relation := req3.StartRelation.Relation }).onrs) ∧
      lookupDirectF env3 3 req3 = .ok [] :=
  ⟨by decide, direct_all_skipped_empty env3 2 req3
    [{ Namespace := "document", Relation := "viewer" },
     { Namespace := "group", Relation := "member" },
     { Namespace := "user", Relation := "..." }] rfl rfl (by decide)⟩

/-- Claim C7: when the start relation coincides with the target's namespace
and relation, the target itself - inserted first by the self-match
(lookup.go 39-42) - appears in the successful result, as long as the
limit admits at least one object (the spec requires limits to be
positive). -/
theorem target_self_in_result (env : Env) (fuel : Nat) (req : LookupRequest)
    (objs : List ObjectAndRelation)
    (hns : req.StartRelation.Namespace = req.TargetONR.Namespace)
    (hrel : req.StartRelation.Relation = req.TargetONR.Relation)
    (hlim : 1 ≤ req.Limit)
    (h : lookupF env fuel req = .ok objs) : req.TargetONR ∈ objs := by
  cases fuel with
  | zero => simp [lookupF] at h
  | succ fuel =>
    rw [lookupF] at h
    dsimp only at h
    rw [if_pos ⟨hns, hrel⟩] at h
    split at h
    · simp [ResolveError] at h
    · split at h
      · simp [ResolveError] at h
      · split at h
        · simp [ResolveError] at h
        · rename_i resolved hany
          refine lookupLoopF_head env fuel req _ _ objs req.TargetONR hlim ?_ h
          refine ONRSet.head_Update ?_
          simp [ONRSet.With, ONRSet.Add, ONRSet.empty]

/-- Witness for C7 at req0 under env0. -/
theorem target_self_in_result_witness :
    req0.StartRelation.Namespace = req0.TargetONR.Namespace ∧
      req0.StartRelation.Relation = req0.TargetONR.Relation ∧
      1 ≤ req0.Limit ∧ lookupF env0 5 req0 = .ok [alice] ∧ req0.TargetONR ∈ [alice] :=
  ⟨rfl, rfl, by decide, by decide,
    target_self_in_result env0 5 req0 [alice] rfl rfl (by decide) (by decide)⟩

/-- Claim C8 counterexample: exclude truncates its output to the limit, so
for the duplicate-free success x = [a, b] and limit 1 the result is [a],
not x. -/
theorem exclude_single_counterexample :
    ([onrA, onrB] : List ObjectAndRelation).Nodup ∧
      LookupExcludeF 1 [.ok [onrA, onrB]] = .ok [onrA] ∧
      LookupExcludeF 1 [.ok [onrA, onrB]] ≠ .ok [onrA, onrB] := by decide

/-- Claim C8 amended: all([x]) = x for every error x and every duplicate-free
success x, whatever the limit; exclude([x]) = x for every error x, and for a
duplicate-free success x whenever its length fits within the limit (exclude
truncates to the limit); all([]) and any([]) are the empty set, error-free. -/
theorem combinator_single_identities (limit : Nat) (x : LookupResult)
    (hx : ∀ l, x = .ok l → l.Nodup) :
    LookupAllF limit [x] = x ∧
      (∀ l, x = .ok l → l.length ≤ limit → LookupExcludeF limit [x] = x) ∧
      (∀ e, x = .err e → LookupExcludeF limit [x] = x) ∧
      LookupAllF limit [] = .ok [] ∧
      LookupAnyF limit [] = .ok [] := by
  refine ⟨?_, ?_, ?_, rfl, rfl⟩
  · cases x with
    | err e => rfl
    | ok l =>
      have hnd := hx l rfl
      have hset : (ONRSet.Update ONRSet.empty l).onrs = l := ONRSet.Update_empty hnd
      rw [LookupAllF]
      try dsimp only
      by_cases hlen : (ONRSet.Update ONRSet.empty l).Length = 0
      · rw [if_pos hlen]
        have : l = [] := by
          have := ONRSet.Length_eq_zero hlen
          rw [hset] at this
          exact this
        rw [this]
      · rw [if_neg hlen, lookupAllLoop, ONRSet.AsSlice, hset]
  · intro l hl hlen
    subst hl
    have hnd := hx l rfl
    have hset : (ONRSet.Update ONRSet.empty l).onrs = l := ONRSet.Update_empty hnd
    rw [LookupExcludeF]
    try dsimp only
    rw [lookupExcludeLoop]
    have hsub : (ONRSet.Subtract (ONRSet.Update ONRSet.empty l) ONRSet.empty).onrs = l := by
      simp only [ONRSet.Subtract, hset]
      simp [ONRSet.empty]
    rw [ONRSet.AsSlice, hsub, limitedSlice, if_neg (by omega)]
  · intro e he
    subst he
    rfl

/-- Witness for the amended C8 at x = [a, b] with limit 2. -/
theorem combinator_single_identities_witness :
    (∀ l, LookupResult.ok [onrA, onrB] = .ok l → l.Nodup) ∧
      (LookupAllF 2 [.ok [onrA, onrB]] = .ok [onrA, onrB] ∧
        (∀ l, LookupResult.ok [onrA, onrB] = .ok l → l.length ≤ 2 →
          LookupExcludeF 2 [.ok [onrA, onrB]] = .ok [onrA, onrB]) ∧
        (∀ e, LookupResult.ok [onrA, onrB] = .err e →
          LookupExcludeF 2 [.ok [onrA, onrB]] = .ok [onrA, onrB]) ∧
        LookupAllF 2 [] = .ok [] ∧
        LookupAnyF 2 [] = .ok []) := by
  have hx : ∀ l, LookupResult.ok [onrA, onrB] = .ok l → l.Nodup := by
    intro l hl
    injection hl with hl2
    rw [← hl2]
    decide
  exact ⟨hx, combinator_single_identities 2 (.ok [onrA, onrB]) hx⟩

/-- Claim C9 (code-bug evidence): under env4 the reverse-query iterator
yields doc:1#viewer and then reports an error; the direct handler's
post-loop check (lookup.go 162-165) sends LookupResult{Err: err} with the
stale nil Execute error, so the sub-request returns an empty success instead
of carrying the iterator error. -/
theorem iterator_error_swallowed :
    env4.ReverseQueryTuplesFromSubject req1.TargetONR req1.AtRevision
        req1.StartRelation.Namespace req1.StartRelation.Relation =
      .ok { tuples := [{ objectAndRelation := doc1viewer, user := alice }],
            errAfter := some (.external 7) } ∧
      directTargetBranch env4 req1 = .ok [] :=
  ⟨rfl, by decide⟩

/-- Claim C10: on a non-empty list of successful inputs LookupAll returns
exactly the intersection of the input ONR sets, and its limit parameter is
never consulted (the two sides of the first conjunct are definitionally the
same function application). -/
theorem lookupAll_full_intersection (limit limit2 : Nat)
    (results : List LookupResult)
    (hok : ∀ r ∈ results, ∃ l, r = .ok l) (hne : results ≠ []) :
    LookupAllF limit results = LookupAllF limit2 results ∧
      ∃ out, LookupAllF limit results = .ok out ∧
        ∀ o, o ∈ out ↔ (∀ l, LookupResult.ok l ∈ results → o ∈ l) := by
  refine ⟨rfl, ?_⟩
  cases results with
  | nil => exact absurd rfl hne
  | cons r rest =>
    obtain ⟨resolved, rfl⟩ := hok r (by simp)
    rw [LookupAllF]
    try dsimp only
    have hmem : ∀ o, o ∈ (ONRSet.Update ONRSet.empty resolved).onrs ↔ o ∈ resolved := by
      intro o
      rw [ONRSet.mem_Update]
      simp [ONRSet.empty]
    split
    · rename_i hzero
      refine ⟨[], rfl, ?_⟩
      intro o
      simp only [List.not_mem_nil, false_iff]
      intro hall
      have : o ∈ (ONRSet.Update ONRSet.empty resolved).onrs :=
        (hmem o).mpr (hall resolved (by simp))
      rw [ONRSet.Length_eq_zero hzero] at this
      simp at this
    · obtain ⟨out, hout, hchar⟩ :=
        lookupAllLoop_char rest _ (fun r hr => hok r (by simp [hr]))
      refine ⟨out, hout, ?_⟩
      intro o
      rw [hchar o]
      constructor
      · rintro ⟨hs, hrest⟩
        intro l hl
        rcases List.mem_cons.mp hl with heq | hl2
        · cases heq
          exact (hmem o).mp hs
        · exact hrest l hl2
      · intro hall
        exact ⟨(hmem o).mpr (hall resolved (by simp)),
          fun l hl => hall l (by simp [hl])⟩

/-- Witness for C10 on rsAll with limits 0 and 5: the intersection is [b]
and no truncation happens even at limit 0. -/
theorem lookupAll_full_intersection_witness :
    (∀ r ∈ rsAll, ∃ l, r = .ok l) ∧ rsAll ≠ [] ∧
      (LookupAllF 0 rsAll = LookupAllF 5 rsAll ∧
        ∃ out, LookupAllF 0 rsAll = .ok out ∧
          ∀ o, o ∈ out ↔ (∀ l, LookupResult.ok l ∈ rsAll → o ∈ l)) := by
  have hok : ∀ r ∈ rsAll, ∃ l, r = .ok l := by
    intro r hr
    rcases List.mem_cons.mp hr with rfl | hr2
    · exact ⟨[onrA, onrB], rfl⟩
    · rcases List.mem_cons.mp hr2 with rfl | hr3
      · exact ⟨[onrB], rfl⟩
      · simp at hr3
  have hne : rsAll ≠ [] := by decide
  exact ⟨hok, hne, lookupAll_full_intersection 0 5 rsAll hok hne⟩

/-- Spec scenario 4 evaluated end to end: with (doc:3#parent@folder:f) and
(folder:f#read@user:alice), looking document#read up from alice resolves
doc:3#read through the TTU dereference. -/
theorem ttu_closure_scenario : lookupF env5 20 req5 = .ok [doc3read] := by decide

end Graph
